import Mathlib

/-!
Shallow embedding of the resilient fetch/cache/schedule engine of the
storystock backend, together with proofs settling the frozen claims.

Source files embedded:
  * backend/utils/api_resilience.py  (CircuitBreaker, APICache, retry_with_backoff,
    cached_api_call, RequestBudget, is_rate_limit_error)
  * backend/services/request_scheduler.py  (RequestScheduler)
  * backend/engines/merger.py  (DataMerger.merge_stock_data request coalescer)

Conventions: wall-clock instants and durations are rationals; Python values
are modelled by the inductive type PyVal (with PyVal.none playing the role of
the Python object None, so that a function returning Optional[Any] is
modelled by a function returning PyVal); exceptions are modelled by the
inductive type Exc carrying the data the engine inspects (an optional HTTP
response status code and the str() message).
-/

/-- Model of the Python values the engine stores and returns.
Python truthiness is what the code branches on (for example in
cached_api_call, which only caches truthy results). -/
inductive PyVal where
  | none
  | boolv (b : Bool)
  | intv (n : Int)
  | strv (s : String)
  | listv (len : Nat)
  deriving DecidableEq, Repr

/-- Python truthiness of a modelled value (None, False, 0, empty string and
empty containers are falsy; a list value is abstracted by its length since
the engine never inspects payload contents). -/
def PyVal.truthy : PyVal → Bool
  | .none => false
  | .boolv b => b
  | .intv n => n != 0
  | .strv s => !s.isEmpty
  | .listv len => len != 0

/-- Model of a Python exception as inspected by the engine: the classes the
engine itself defines, plus a generic exception carrying an optional
response.status_code and its str() message. -/
inductive Exc where
  | generic (status : Option Nat) (message : String)
  | rateLimitError (message : String)
  | circuitOpenError (message : String)
  | retryBudgetExceeded (message : String)
  deriving DecidableEq, Repr

/-- str(exc): the message carried by the exception. -/
def Exc.str : Exc → String
  | .generic _ m => m
  | .rateLimitError m => m
  | .circuitOpenError m => m
  | .retryBudgetExceeded m => m

/-- getattr(getattr(exc, "response", None), "status_code", None): only the
generic constructor models an exception carrying an HTTP response. -/
def Exc.status : Exc → Option Nat
  | .generic st _ => st
  | _ => Option.none

/-- Is the character list p a leading segment of the character list l. -/
def charsStartWith : List Char → List Char → Bool
  | [], _ => true
  | _ :: _, [] => false
  | p :: ps, c :: cs => p == c && charsStartWith ps cs

/-- Does the character list l contain the character list p as a contiguous
run (Python substring membership `p in l`). -/
def charsContain (p : List Char) : List Char → Bool
  | [] => charsStartWith p []
  | c :: cs => charsStartWith p (c :: cs) || charsContain p cs

/-- Python s.lower() restricted to the ASCII messages the engine matches on. -/
def lowerChars (s : String) : List Char := s.data.map Char.toLower

/-- is_rate_limit_error (api_resilience.py): HTTP 429 status, or a message
containing "429", "too many requests" or "rate limit" (case-insensitive). -/
def is_rate_limit_error (exc : Exc) : Bool :=
  exc.status == some 429
    || charsContain "429".data (lowerChars exc.str)
    || charsContain "too many requests".data (lowerChars exc.str)
    || charsContain "rate limit".data (lowerChars exc.str)

/-! ## CircuitBreaker (api_resilience.py) -/

/-- Circuit breaker state enum: CLOSED, OPEN, HALF_OPEN. -/
inductive BreakerState where
  | closed
  | open
  | halfOpen
  deriving DecidableEq, Repr

/-- CircuitBreaker: failure timestamps are kept oldest-first, mirroring the
deque self._failures; times are wall-clock rationals. -/
structure CircuitBreaker where
  failure_threshold : Nat
  window_seconds : ℚ
  recovery_timeout : ℚ
  failures : List ℚ
  state : BreakerState
  opened_until : ℚ
  deriving DecidableEq, Repr

namespace CircuitBreaker

/-- CircuitBreaker.__init__ with an empty failure window. -/
def mk0 (failure_threshold : Nat := 3) (window_seconds : ℚ := 300)
    (recovery_timeout : ℚ := 300) : CircuitBreaker :=
  { failure_threshold := failure_threshold
    window_seconds := window_seconds
    recovery_timeout := recovery_timeout
    failures := []
    state := .closed
    opened_until := 0 }

/-- CircuitBreaker._prune: pop failures older than the sliding window. -/
def prune (b : CircuitBreaker) (now : ℚ) : CircuitBreaker :=
  { b with failures := b.failures.dropWhile (fun t => decide (now - t > b.window_seconds)) }

/-- CircuitBreaker.allow_request: returns the boolean decision and the
updated breaker (OPEN moves to HALF_OPEN once the recovery deadline passed). -/
def allow_request (b : CircuitBreaker) (now : ℚ) : Bool × CircuitBreaker :=
  if b.state = .open then
    if now ≥ b.opened_until then
      (true, { b with state := .halfOpen })
    else
      (false, b)
  else
    (true, b)

/-- CircuitBreaker.record_success: clear the failure window, close the circuit. -/
def record_success (b : CircuitBreaker) : CircuitBreaker :=
  { b with failures := [], state := .closed }

/-- CircuitBreaker.record_failure: only rate-limit classified exceptions are
counted; reaching the threshold inside the window opens the circuit. -/
def record_failure (b : CircuitBreaker) (exc : Exc) (now : ℚ) : CircuitBreaker :=
  if is_rate_limit_error exc then
    let b1 := b.prune now
    let fs := b1.failures ++ [now]
    if fs.length ≥ b1.failure_threshold then
      { b1 with failures := fs, state := .open, opened_until := now + b1.recovery_timeout }
    else
      { b1 with failures := fs }
  else
    b

end CircuitBreaker

/-! ## APICache (api_resilience.py)

The memory tier models the OrderedDict self.memory_cache as an association
list in recency order, head = least recently used; the disk tier models the
cache_dir files as an association list (cache files hold value, cached_at and
ttl in the current payload format written by _save_to_disk; the
backward-compatibility branch for raw legacy payloads never fires for
entries written by this embedding, and disk I/O is modelled as error-free,
matching the code path where no OSError occurs). -/

/-- One cache entry: the (value, cached_at, ttl) tuple of the code. -/
structure CacheEntry where
  value : PyVal
  cached_at : ℚ
  ttl : ℚ
  deriving DecidableEq, Repr

/-- The self.stats counters. -/
structure CacheStats where
  hits : Nat
  misses : Nat
  stale_hits : Nat
  sets : Nat
  disk_hits : Nat
  disk_misses : Nat
  deriving DecidableEq, Repr

/-- Python dict membership and read (first binding wins; bindings are unique). -/
def assocLookup : List (String × CacheEntry) → String → Option CacheEntry
  | [], _ => Option.none
  | (k, e) :: rest, key => if k = key then some e else assocLookup rest key

/-- Python del d[key]: remove the binding for key. -/
def assocErase : List (String × CacheEntry) → String → List (String × CacheEntry)
  | [], _ => []
  | (k, e) :: rest, key => if k = key then rest else (k, e) :: assocErase rest key

/-- Python d[key] = e: replace in place when present, append when absent. -/
def dictAssign : List (String × CacheEntry) → String → CacheEntry → List (String × CacheEntry)
  | [], key, e => [(key, e)]
  | (k, e0) :: rest, key, e =>
    if k = key then (key, e) :: rest else (k, e0) :: dictAssign rest key e

/-- OrderedDict.move_to_end(key): move the binding to the most-recent end. -/
def moveToEnd (m : List (String × CacheEntry)) (key : String) : List (String × CacheEntry) :=
  match assocLookup m key with
  | some e => assocErase m key ++ [(key, e)]
  | Option.none => m

/-- The eviction loop of APICache.set: while len > max_entries, pop the
least-recently-used binding from the front (OrderedDict.popitem(last=False)). -/
def evictLRU : List (String × CacheEntry) → Nat → List (String × CacheEntry)
  | [], _ => []
  | x :: rest, max_entries =>
    if (x :: rest).length > max_entries then evictLRU rest max_entries else x :: rest

/-- APICache: both tiers plus configuration and counters. -/
structure APICache where
  memory_cache : List (String × CacheEntry)
  disk : List (String × CacheEntry)
  default_ttl : ℚ
  enable_disk : Bool
  enable_memory : Bool
  max_entries : Nat
  stats : CacheStats
  deriving DecidableEq, Repr

namespace APICache

/-- APICache.__init__ with empty tiers and zeroed counters. -/
def mk0 (default_ttl : ℚ := 3600) (enable_disk : Bool := true)
    (enable_memory : Bool := true) (max_entries : Nat := 5000) : APICache :=
  { memory_cache := []
    disk := []
    default_ttl := default_ttl
    enable_disk := enable_disk
    enable_memory := enable_memory
    max_entries := max_entries
    stats := ⟨0, 0, 0, 0, 0, 0⟩ }

/-- APICache._load_from_disk: read the payload for key, judge freshness, and
return it when fresh or when stale reads are allowed. -/
def _load_from_disk (c : APICache) (key : String) (now : ℚ) (allow_stale : Bool) :
    Option (PyVal × ℚ × ℚ × Bool) :=
  match assocLookup c.disk key with
  | some e =>
    let is_fresh := decide (now - e.cached_at < e.ttl)
    if is_fresh || allow_stale then some (e.value, e.cached_at, e.ttl, is_fresh)
    else Option.none
  | Option.none => Option.none

/-- Tail of APICache.get: the final miss accounting (returns Python None). -/
def getMiss (c : APICache) : PyVal × APICache :=
  let c1 := { c with stats := { c.stats with misses := c.stats.misses + 1 } }
  let c2 := if c1.enable_disk
    then { c1 with stats := { c1.stats with disk_misses := c1.stats.disk_misses + 1 } }
    else c1
  (PyVal.none, c2)

/-- Middle of APICache.get: the disk-fallback phase, promoting disk loads
into the memory tier. -/
def getDisk (c : APICache) (key : String) (now : ℚ) (allow_stale : Bool) : PyVal × APICache :=
  if c.enable_disk then
    match c._load_from_disk key now allow_stale with
    | some (v, cached_at, ttl, is_fresh) =>
      let c1 := if is_fresh
        then { c with stats := { c.stats with disk_hits := c.stats.disk_hits + 1 } }
        else { c with stats := { c.stats with stale_hits := c.stats.stale_hits + 1 } }
      let c2 := if c1.enable_memory
        then { c1 with memory_cache := dictAssign c1.memory_cache key ⟨v, cached_at, ttl⟩ }
        else c1
      (v, c2)
    | Option.none => c.getMiss
  else c.getMiss

/-- APICache.get: memory tier first (fresh hit, stale hit when allowed, or
deletion of the expired entry), then disk fallback, then miss. Returns the
value (Python None, i.e. PyVal.none, on a miss) and the updated cache. -/
def get (c : APICache) (key : String) (now : ℚ) (allow_stale : Bool) : PyVal × APICache :=
  if c.enable_memory then
    match assocLookup c.memory_cache key with
    | some e =>
      if now - e.cached_at < e.ttl then
        (e.value, { c with stats := { c.stats with hits := c.stats.hits + 1 }
                           memory_cache := moveToEnd c.memory_cache key })
      else if allow_stale then
        (e.value, { c with stats := { c.stats with stale_hits := c.stats.stale_hits + 1 }
                           memory_cache := moveToEnd c.memory_cache key })
      else
        getDisk { c with memory_cache := assocErase c.memory_cache key } key now allow_stale
    | Option.none => c.getDisk key now allow_stale
  else c.getDisk key now allow_stale

/-- APICache.set: write the entry (with effective TTL) into the memory tier
at the most-recent end, evict from the LRU front past max_entries, persist
to disk, and count the set. -/
def set (c : APICache) (key : String) (value : PyVal) (ttl : Option ℚ) (now : ℚ) : APICache :=
  let effective_ttl := ttl.getD c.default_ttl
  let entry : CacheEntry := ⟨value, now, effective_ttl⟩
  let c1 := if c.enable_memory
    then { c with memory_cache :=
            evictLRU (assocErase c.memory_cache key ++ [(key, entry)]) c.max_entries }
    else c
  let c2 := if c1.enable_disk
    then { c1 with disk := dictAssign c1.disk key entry }
    else c1
  { c2 with stats := { c2.stats with sets := c2.stats.sets + 1 } }

end APICache

/-! ## cached_api_call facade (api_resilience.py) -/

/-- Outcome of one pass through the cached_api_call wrapper: the result
(value or raised exception), the cache and breaker afterwards, and whether
the wrapped function was invoked. -/
structure FacadeOut where
  result : Except Exc PyVal
  cache : APICache
  breaker : Option CircuitBreaker
  called : Bool

/-- The try/except body of the cached_api_call wrapper, once the wrapped
function is actually invoked: fres is the outcome of func(*args, **kwargs).
On success the breaker records success and only truthy results are cached;
on failure the breaker records the failure and, when allowed, a stale cache
read is attempted before re-raising. -/
def facadeAttempt (c : APICache) (cb : Option CircuitBreaker) (allow_stale_on_error : Bool)
    (cache_key : String) (ttl now : ℚ) (fres : Except Exc PyVal) : FacadeOut :=
  match fres with
  | .ok result =>
    let cb1 := cb.map CircuitBreaker.record_success
    let c1 := if result.truthy then c.set cache_key result (some ttl) now else c
    ⟨.ok result, c1, cb1, true⟩
  | .error e =>
    let cb1 := cb.map (fun b => b.record_failure e now)
    if allow_stale_on_error then
      let sv := c.get cache_key now true
      if sv.1 ≠ PyVal.none then ⟨.ok sv.1, sv.2, cb1, true⟩
      else ⟨.error e, sv.2, cb1, true⟩
    else ⟨.error e, c, cb1, true⟩

/-- The cached_api_call wrapper: fresh-cache check, circuit-breaker gate with
stale fallback or CircuitOpenError, then the fetch attempt. The cache key is
the already-assembled prefix:func:args:kwargs string. -/
def cached_api_call (c : APICache) (cb : Option CircuitBreaker) (allow_stale_on_error : Bool)
    (cache_key : String) (ttl now : ℚ) (fres : Except Exc PyVal) : FacadeOut :=
  let cv := c.get cache_key now false
  if cv.1 ≠ PyVal.none then ⟨.ok cv.1, cv.2, cb, false⟩
  else
    match cb with
    | some b =>
      let ar := b.allow_request now
      if ar.1 then facadeAttempt cv.2 (some ar.2) allow_stale_on_error cache_key ttl now fres
      else
        let sv := (cv.2).get cache_key now true
        if sv.1 ≠ PyVal.none then ⟨.ok sv.1, sv.2, some ar.2, false⟩
        else ⟨.error (.circuitOpenError "Circuit open"), sv.2, some ar.2, false⟩
    | Option.none => facadeAttempt cv.2 Option.none allow_stale_on_error cache_key ttl now fres

/-! ## RequestBudget and retry_with_backoff (api_resilience.py) -/

/-- RequestBudget: total attempts consumed across provider calls in one request. -/
structure RequestBudget where
  max_attempts : Nat
  attempts : Nat
  deriving DecidableEq, Repr

/-- RequestBudget.consume: refuse once max_attempts is reached, otherwise
count one attempt. -/
def RequestBudget.consume (b : RequestBudget) : Bool × RequestBudget :=
  if b.attempts ≥ b.max_attempts then (false, b)
  else (true, { b with attempts := b.attempts + 1 })

/-- Configuration of the retry_with_backoff decorator (retry_key_fn is left
unset, so the per-key cooldown and coordinator branches, all guarded by
`if retry_key`, do not execute). -/
structure RetryConfig where
  max_attempts : Nat := 2
  initial_delay : ℚ := 2
  backoff_factor : ℚ := 2
  jitter : ℚ := 1/5
  retry_on_rate_limit : Bool := false

/-- Environment of a run of the retry wrapper: outcomes k is the result of
the k-th actual invocation of the wrapped function (0-based), uj a is the
uniform [0,1] draw scaled into random.uniform(0, delay*jitter) at attempt a,
and cooldownRand a is the random.uniform(*rate_limit_cooldown_range) draw at
attempt a. -/
structure RetryEnv where
  outcomes : Nat → Except Exc PyVal
  uj : Nat → ℚ
  cooldownRand : Nat → ℚ

/-- Observable outcome of a run of the retry wrapper: the returned value or
raised exception, every time.sleep duration in order, the number of times
the wrapped function was invoked, and the request budget afterwards. -/
structure RetryOut where
  result : Except Exc PyVal
  sleeps : List ℚ
  calls : Nat
  budget : Option RequestBudget

/-- The `for attempt in range(1, max_attempts + 1)` loop of the
retry_with_backoff wrapper. fuel is the number of remaining iterations
(entered with fuel = max_attempts, attempt = 1). Each iteration first runs
budget.consume — a refusal raises RetryBudgetExceeded inside the try block,
which the generic except clause catches like any other failure — then
invokes the wrapped function. The except block classifies rate-limit
failures (immediate RateLimitError unless retry_on_rate_limit), and for
ordinary failures sleeps delay plus jitter and moves delay through the
hand-tuned 2.0 / 5.0 steps before multiplying by backoff_factor. When the
loop exhausts, the last exception is re-raised. -/
def retryGo (cfg : RetryConfig) (env : RetryEnv) :
    Nat → Nat → ℚ → Option RequestBudget → Nat → List ℚ → Option Exc → RetryOut
  | 0, _, _, budget, calls, sleeps, last =>
    ⟨.error (last.getD (.generic Option.none "TypeError: exceptions must derive from BaseException")),
      sleeps, calls, budget⟩
  | f + 1, attempt, delay, budget, calls, sleeps, _ =>
    let step : Option RequestBudget × Nat × Except Exc PyVal :=
      match budget with
      | some b =>
        let cres := b.consume
        if cres.1 then (some cres.2, calls + 1, env.outcomes calls)
        else (some cres.2, calls, .error (.retryBudgetExceeded "Request retry budget exhausted"))
      | Option.none => (Option.none, calls + 1, env.outcomes calls)
    match step with
    | (budget1, calls1, .ok r) => ⟨.ok r, sleeps, calls1, budget1⟩
    | (budget1, calls1, .error e) =>
      if is_rate_limit_error e then
        let cooldown := env.cooldownRand attempt
        if cfg.retry_on_rate_limit && attempt < cfg.max_attempts then
          retryGo cfg env f (attempt + 1) delay budget1 calls1 (sleeps ++ [cooldown]) (some e)
        else
          ⟨.error (.rateLimitError e.str), sleeps, calls1, budget1⟩
      else if attempt < cfg.max_attempts then
        let jitter_delta := if delay > 0 then env.uj attempt * (delay * cfg.jitter) else 0
        let sleep_for := delay + jitter_delta
        let delay1 : ℚ := if attempt = 1 then 2 else if attempt = 2 then 5
          else delay * cfg.backoff_factor
        retryGo cfg env f (attempt + 1) delay1 budget1 calls1 (sleeps ++ [sleep_for]) (some e)
      else
        retryGo cfg env f (attempt + 1) delay budget1 calls1 sleeps (some e)

/-- One pass through the retry_with_backoff wrapper (retry_key is None, so
the initial coordinator cooldown check is skipped); budget is the
request-scoped contextvar budget visible to this call, if any. -/
def retry_with_backoff (cfg : RetryConfig) (env : RetryEnv)
    (budget : Option RequestBudget) : RetryOut :=
  retryGo cfg env cfg.max_attempts 1 cfg.initial_delay budget 0 [] Option.none

/-! ## RequestScheduler (request_scheduler.py) -/

/-- One queued task: run_at and priority order the heap; payload identifies
fn/args (the engine treats them opaquely); key is the dedupe key. -/
structure SchedTask where
  run_at : ℚ
  priority : Int
  payload : Nat
  key : Option String
  deriving DecidableEq, Repr

/-- Python truthiness of the optional dedupe key (None and "" are falsy). -/
def keyTruthy : Option String → Bool
  | Option.none => false
  | some k => !k.isEmpty

/-- RequestScheduler: the heap _queue (modelled as the multiset of queued
tasks, dequeued by minimal (run_at, priority)), the _inflight_keys set and
the _running flag. -/
structure RequestScheduler where
  queue : List SchedTask
  inflight : List String
  running : Bool
  deriving DecidableEq, Repr

namespace RequestScheduler

/-- A freshly constructed scheduler. -/
def mk0 : RequestScheduler := ⟨[], [], false⟩

/-- RequestScheduler.schedule: start the worker, reject when the (truthy)
dedupe key is already in-flight, otherwise compute run_at (delay clamped at
zero, plus the jitter draw rand scaled by max(0.1, delay or 1.0)), push the
task and register the key. Returns the accepted flag and the new state. -/
def schedule (s : RequestScheduler) (payload : Nat) (priority : Int)
    (delay_seconds jitter : ℚ) (key : Option String) (now rand : ℚ) :
    Bool × RequestScheduler :=
  let s0 := { s with running := true }
  if keyTruthy key && decide (key.getD "" ∈ s0.inflight) then
    (false, s0)
  else
    let base := max (0 : ℚ) delay_seconds
    let run_at := now + base
    let run_at := if jitter ≠ 0 then
        run_at + rand * max (1/10 : ℚ) (if delay_seconds = 0 then 1 else delay_seconds)
      else run_at
    let task : SchedTask := ⟨run_at, priority, payload, key⟩
    let inflight1 := if keyTruthy key then s0.inflight ++ [key.getD ""] else s0.inflight
    (true, { s0 with queue := s0.queue ++ [task], inflight := inflight1 })

/-- The minimum of the heap by lexicographic (run_at, priority), the order
heapq maintains over the pushed tuples. -/
def popMin (q : List SchedTask) : Option (SchedTask × List SchedTask) :=
  match q with
  | [] => Option.none
  | t :: rest =>
    let best := rest.foldl
      (fun acc u =>
        if u.run_at < acc.run_at ∨ (u.run_at = acc.run_at ∧ u.priority < acc.priority)
        then u else acc) t
    some (best, (t :: rest).erase best)

/-- One due-task iteration of RequestScheduler._worker: pop the minimal
task, execute it (outcome is the task body's result; an exception is printed
and swallowed), and in the finally block discard the task's truthy dedupe
key from the in-flight set. -/
def runNextTask (s : RequestScheduler) (outcome : Except Exc Unit) : RequestScheduler :=
  match popMin s.queue with
  | Option.none => s
  | some (t, rest) =>
    let _ := outcome
    { s with queue := rest
             inflight := if keyTruthy t.key then s.inflight.erase (t.key.getD "") else s.inflight }

end RequestScheduler

/-! ## DataMerger.merge_stock_data request coalescing (merger.py)

The coalescer is modelled as a labelled transition system over the callers
of merge_stock_data for one fixed symbol key. Each caller is a thread; the
steps are exactly the atomic actions of the code: the registration critical
section under _pending_lock (becoming owner or waiter), the owner's fetch
(_build_context) completing with a value or an exception — the coalesce
window sleep and the fetch itself occupy the whole ownerFetching phase —
the owner's finally block (event.set() plus popping the pending entry), and
a waiter waking after event.wait() and reading the shared entry. fetch k is
the outcome of the k-th invocation of the underlying fetch. -/

/-- One _pending_requests entry: the dict
with keys event / result / error, created as
event unset, result None, error None. -/
structure PendEntry where
  eventSet : Bool
  result : PyVal
  error : Option Exc
  deriving DecidableEq, Repr

/-- The freshly registered entry. -/
def blankEntry : PendEntry := ⟨false, PyVal.none, Option.none⟩

/-- Store the owner's fetch outcome into the entry: a value goes into
result, an exception into error (the code stores exactly one of the two). -/
def storeOutcome (e : PendEntry) : Except Exc PyVal → PendEntry
  | .ok v => { e with result := v }
  | .error err => { e with error := some err }

/-- The entry as published: outcome stored, then event set in finally. -/
def storedEntry (out : Except Exc PyVal) : PendEntry := storeOutcome blankEntry out

/-- The entry after the owner's finally block ran. -/
def doneEntry (out : Except Exc PyVal) : PendEntry :=
  { storedEntry out with eventSet := true }

/-- What a waiter returns after event.wait(): re-raise the stored exception
if any (exception objects are truthy), else return the stored result. -/
def waiterOutcome (e : PendEntry) : Except Exc PyVal :=
  match e.error with
  | some err => .error err
  | Option.none => .ok e.result

deriving instance DecidableEq for Except

/-- The control point of one caller of merge_stock_data. -/
inductive MPhase where
  | entering
  | ownerFetching (eid : Nat)
  | ownerPublishing (eid : Nat) (out : Except Exc PyVal)
  | waiterWaiting (eid : Nat)
  | done (out : Except Exc PyVal)
  deriving DecidableEq, Repr

/-- Global state of the coalescer for one key: every pending entry ever
created (index = entry id), the id currently bound in _pending_requests
for this key if any, each caller's control point, and how many times the
underlying fetch has been invoked. -/
structure MergeSys (n : Nat) where
  entries : List PendEntry
  pending : Option Nat
  threads : Fin n → MPhase
  fetchCalls : Nat

/-- All callers about to enter merge_stock_data; no entry registered yet. -/
def initSys (n : Nat) : MergeSys n :=
  ⟨[], Option.none, fun _ => .entering, 0⟩

/-- Update one caller's control point. -/
def updThread {n : Nat} (s : MergeSys n) (t : Fin n) (ph : MPhase) : Fin n → MPhase :=
  fun u => if u = t then ph else s.threads u

/-- Update the entry with the given id in place. -/
def setEntry : List PendEntry → Nat → (PendEntry → PendEntry) → List PendEntry
  | [], _, _ => []
  | e :: rest, 0, f => f e :: rest
  | e :: rest, i + 1, f => e :: setEntry rest i f

/-- The atomic steps of merge_stock_data. -/
inductive MStep (fetch : Nat → Except Exc PyVal) {n : Nat} :
    MergeSys n → MergeSys n → Prop where
  | enterOwner (s : MergeSys n) (t : Fin n)
      (ht : s.threads t = .entering) (hp : s.pending = Option.none) :
      MStep fetch s
        { entries := s.entries ++ [blankEntry]
          pending := some s.entries.length
          threads := updThread s t (.ownerFetching s.entries.length)
          fetchCalls := s.fetchCalls }
  | enterWaiter (s : MergeSys n) (t : Fin n) (eid : Nat)
      (ht : s.threads t = .entering) (hp : s.pending = some eid) :
      MStep fetch s { s with threads := updThread s t (.waiterWaiting eid) }
  | fetchReturn (s : MergeSys n) (t : Fin n) (eid : Nat)
      (ht : s.threads t = .ownerFetching eid) :
      MStep fetch s
        { entries := setEntry s.entries eid (fun e => storeOutcome e (fetch s.fetchCalls))
          pending := s.pending
          threads := updThread s t (.ownerPublishing eid (fetch s.fetchCalls))
          fetchCalls := s.fetchCalls + 1 }
  | publish (s : MergeSys n) (t : Fin n) (eid : Nat) (out : Except Exc PyVal)
      (ht : s.threads t = .ownerPublishing eid out) :
      MStep fetch s
        { entries := setEntry s.entries eid (fun e => { e with eventSet := true })
          pending := Option.none
          threads := updThread s t (.done out)
          fetchCalls := s.fetchCalls }
  | wake (s : MergeSys n) (t : Fin n) (eid : Nat) (en : PendEntry)
      (ht : s.threads t = .waiterWaiting eid)
      (he : s.entries.get? eid = some en) (hev : en.eventSet = true) :
      MStep fetch s { s with threads := updThread s t (.done (waiterOutcome en)) }

/-- A (possibly empty) interleaving of caller steps. -/
def MRun (fetch : Nat → Except Exc PyVal) {n : Nat} :
    MergeSys n → MergeSys n → Prop :=
  Relation.ReflTransGen (MStep fetch)

/-!
# Coalescer invariants (merger.py)
-/

theorem updThread_self {n : Nat} (s : MergeSys n) (t : Fin n) (ph : MPhase) :
    updThread s t ph t = ph := by
  simp [updThread]

theorem updThread_other {n : Nat} (s : MergeSys n) (t u : Fin n) (ph : MPhase)
    (h : u ≠ t) : updThread s t ph u = s.threads u := by
  simp [updThread, h]

theorem waiterOutcome_doneEntry (out : Except Exc PyVal) :
    waiterOutcome (doneEntry out) = out := by
  cases out <;> rfl

/-- Invariant of the arrival window (no fetch completed yet): either nobody
has entered, or there is exactly the owner's blank entry, one owner, and
everyone else still entering or already waiting on entry 0. -/
def Inv0 {n : Nat} (s : MergeSys n) : Prop :=
  s.fetchCalls = 0 ∧
  ((s.entries = [] ∧ s.pending = Option.none ∧ ∀ t, s.threads t = .entering) ∨
   (s.entries = [blankEntry] ∧ s.pending = some 0 ∧
     ∃ t0, s.threads t0 = .ownerFetching 0 ∧
       ∀ t, t ≠ t0 → s.threads t = .entering ∨ s.threads t = .waiterWaiting 0))

theorem Inv0_step {n : Nat} (fetch : Nat → Except Exc PyVal) {s s2 : MergeSys n}
    (hinv : Inv0 s) (hstep : MStep fetch s s2) (h0 : s2.fetchCalls = 0) : Inv0 s2 := by
  obtain ⟨hfc, hcase⟩ := hinv
  cases hstep with
  | enterOwner t ht hp =>
    rcases hcase with ⟨he, _, hall⟩ | ⟨_, hps, _⟩
    · refine ⟨hfc, Or.inr ⟨?_, ?_, t, ?_, ?_⟩⟩
      · show s.entries ++ [blankEntry] = [blankEntry]
        rw [he]; rfl
      · show some s.entries.length = some 0
        rw [he]; rfl
      · show updThread s t (.ownerFetching s.entries.length) t = .ownerFetching 0
        rw [updThread_self, he]; rfl
      · intro u hu
        left
        show updThread s t (.ownerFetching s.entries.length) u = .entering
        rw [updThread_other s t u _ hu]
        exact hall u
    · rw [hp] at hps
      exact Option.noConfusion hps
  | enterWaiter t eid ht hp =>
    rcases hcase with ⟨_, hpn, _⟩ | ⟨he, hps, t0, ht0, hrest⟩
    · rw [hpn] at hp
      exact Option.noConfusion hp
    · rw [hps] at hp
      injection hp with heid
      subst heid
      have htne : t ≠ t0 := by
        intro hEq
        rw [hEq, ht0] at ht
        exact MPhase.noConfusion ht
      refine ⟨hfc, Or.inr ⟨he, hps, t0, ?_, ?_⟩⟩
      · show updThread s t (.waiterWaiting 0) t0 = .ownerFetching 0
        rw [updThread_other s t t0 _ (Ne.symm htne)]
        exact ht0
      · intro u hu
        by_cases hut : u = t
        · right
          show updThread s t (.waiterWaiting 0) u = .waiterWaiting 0
          rw [hut, updThread_self]
        · show updThread s t (.waiterWaiting 0) u = .entering ∨
            updThread s t (.waiterWaiting 0) u = .waiterWaiting 0
          rw [updThread_other s t u _ hut]
          exact hrest u hu
  | fetchReturn t eid ht =>
    exact absurd (h0 : s.fetchCalls + 1 = 0) (Nat.succ_ne_zero _)
  | publish t eid out ht =>
    rcases hcase with ⟨_, _, hall⟩ | ⟨_, _, t0, ht0, hrest⟩
    · rw [hall t] at ht
      exact MPhase.noConfusion ht
    · by_cases hEq : t = t0
      · rw [hEq, ht0] at ht
        exact MPhase.noConfusion ht
      · rcases hrest t hEq with h | h <;> rw [h] at ht <;> exact MPhase.noConfusion ht
  | wake t eid en ht he hev =>
    rcases hcase with ⟨_, _, hall⟩ | ⟨hent, _, t0, ht0, hrest⟩
    · rw [hall t] at ht
      exact MPhase.noConfusion ht
    · by_cases hEq : t = t0
      · rw [hEq, ht0] at ht
        exact MPhase.noConfusion ht
      · rcases hrest t hEq with h | h
        · rw [h] at ht
          exact MPhase.noConfusion ht
        · rw [h] at ht
          injection ht with heid
          subst heid
          rw [hent] at he
          have he2 : blankEntry = en := by
            have h3 : some blankEntry = some en := he
            injection h3
          rw [← he2] at hev
          exact absurd hev (by decide)

/-- Phase A: the owner is about to fetch (coalescing-window sleep included);
everyone else waits on entry 0. -/
def PhaseA {n : Nat} (s : MergeSys n) : Prop :=
  s.fetchCalls = 0 ∧ s.entries = [blankEntry] ∧ s.pending = some 0 ∧
  ∃ t0, s.threads t0 = .ownerFetching 0 ∧ ∀ t, t ≠ t0 → s.threads t = .waiterWaiting 0

/-- Phase B: the single fetch has completed and its outcome is stored; the
owner is inside the finally block; the event is not yet set. -/
def PhaseB (fetch : Nat → Except Exc PyVal) {n : Nat} (s : MergeSys n) : Prop :=
  s.fetchCalls = 1 ∧ s.entries = [storedEntry (fetch 0)] ∧ s.pending = some 0 ∧
  ∃ t0, s.threads t0 = .ownerPublishing 0 (fetch 0) ∧
    ∀ t, t ≠ t0 → s.threads t = .waiterWaiting 0

/-- Phase C: the owner has signalled and deregistered the entry; every
caller is either still waiting or done with the one shared outcome. -/
def PhaseC (fetch : Nat → Except Exc PyVal) {n : Nat} (s : MergeSys n) : Prop :=
  s.fetchCalls = 1 ∧ s.entries = [doneEntry (fetch 0)] ∧ s.pending = Option.none ∧
  ∀ t, s.threads t = .waiterWaiting 0 ∨ s.threads t = .done (fetch 0)

/-- Invariant after every caller has entered: the system is in phase A, B or
C, and no caller is entering any more (so no second entry can be created). -/
def Inv1 (fetch : Nat → Except Exc PyVal) {n : Nat} (s : MergeSys n) : Prop :=
  (∀ t, s.threads t ≠ .entering) ∧ (PhaseA s ∨ PhaseB fetch s ∨ PhaseC fetch s)

theorem Inv1_step {n : Nat} (fetch : Nat → Except Exc PyVal) {s s2 : MergeSys n}
    (hinv : Inv1 fetch s) (hstep : MStep fetch s s2) : Inv1 fetch s2 := by
  obtain ⟨hne, hphase⟩ := hinv
  cases hstep with
  | enterOwner t ht hp => exact absurd ht (hne t)
  | enterWaiter t eid ht hp => exact absurd ht (hne t)
  | fetchReturn t eid ht =>
    rcases hphase with ⟨hfc, hent, hps, t0, ht0, hrest⟩ | hB | hC
    · have hEq : t = t0 := by
        by_contra hEq
        rw [hrest t hEq] at ht
        exact MPhase.noConfusion ht
      have heid : eid = 0 := by
        rw [hEq, ht0] at ht
        injection ht with h
        exact h.symm
      subst heid
      constructor
      · intro u
        by_cases hut : u = t
        · rw [hut]
          show updThread s t (.ownerPublishing 0 (fetch s.fetchCalls)) t ≠ .entering
          rw [updThread_self]
          exact fun hcon => MPhase.noConfusion hcon
        · show updThread s t (.ownerPublishing 0 (fetch s.fetchCalls)) u ≠ .entering
          rw [updThread_other s t u _ hut]
          exact hne u
      · refine Or.inr (Or.inl ⟨?_, ?_, hps, t, ?_, ?_⟩)
        · show s.fetchCalls + 1 = 1
          rw [hfc]
        · show setEntry s.entries 0 (fun e => storeOutcome e (fetch s.fetchCalls))
            = [storedEntry (fetch 0)]
          rw [hent, hfc]
          rfl
        · show updThread s t (.ownerPublishing 0 (fetch s.fetchCalls)) t
            = .ownerPublishing 0 (fetch 0)
          rw [updThread_self, hfc]
        · intro u hu
          show updThread s t (.ownerPublishing 0 (fetch s.fetchCalls)) u = .waiterWaiting 0
          rw [updThread_other s t u _ hu]
          exact hrest u (by rw [hEq] at hu; exact hu)
    · obtain ⟨_, _, _, t0, ht0, hrest⟩ := hB
      by_cases hEq : t = t0
      · rw [hEq, ht0] at ht
        exact MPhase.noConfusion ht
      · rw [hrest t hEq] at ht
        exact MPhase.noConfusion ht
    · obtain ⟨_, _, _, hthreads⟩ := hC
      rcases hthreads t with h | h <;> rw [h] at ht <;> exact MPhase.noConfusion ht
  | publish t eid out ht =>
    rcases hphase with ⟨_, _, _, t0, ht0, hrest⟩ | hB | hC
    · by_cases hEq : t = t0
      · rw [hEq, ht0] at ht
        exact MPhase.noConfusion ht
      · rw [hrest t hEq] at ht
        exact MPhase.noConfusion ht
    · obtain ⟨hfc, hent, hps, t0, ht0, hrest⟩ := hB
      have hEq : t = t0 := by
        by_contra hEq
        rw [hrest t hEq] at ht
        exact MPhase.noConfusion ht
      have hout : eid = 0 ∧ out = fetch 0 := by
        rw [hEq, ht0] at ht
        injection ht with h1 h2
        exact ⟨h1.symm, h2.symm⟩
      obtain ⟨heid, houtEq⟩ := hout
      subst heid
      subst houtEq
      constructor
      · intro u
        by_cases hut : u = t
        · rw [hut]
          show updThread s t (.done (fetch 0)) t ≠ .entering
          rw [updThread_self]
          exact fun hcon => MPhase.noConfusion hcon
        · show updThread s t (.done (fetch 0)) u ≠ .entering
          rw [updThread_other s t u _ hut]
          exact hne u
      · refine Or.inr (Or.inr ⟨hfc, ?_, rfl, ?_⟩)
        · show setEntry s.entries 0 (fun e => { e with eventSet := true })
            = [doneEntry (fetch 0)]
          rw [hent]
          cases hout0 : fetch 0 <;> rfl
        · intro u
          by_cases hut : u = t
          · right
            rw [hut]
            show updThread s t (.done (fetch 0)) t = .done (fetch 0)
            rw [updThread_self]
          · left
            show updThread s t (.done (fetch 0)) u = .waiterWaiting 0
            rw [updThread_other s t u _ hut]
            exact hrest u (by rw [hEq] at hut; exact hut)
    · obtain ⟨_, _, _, hthreads⟩ := hC
      rcases hthreads t with h | h <;> rw [h] at ht <;> exact MPhase.noConfusion ht
  | wake t eid en ht he hev =>
    rcases hphase with hA | hB | hC
    · obtain ⟨_, hent, _, t0, ht0, hrest⟩ := hA
      have hEq : t ≠ t0 := by
        intro hEq
        rw [hEq, ht0] at ht
        exact MPhase.noConfusion ht
      rw [hrest t hEq] at ht
      injection ht with heid
      subst heid
      rw [hent] at he
      have he2 : blankEntry = en := by
        have h3 : some blankEntry = some en := he
        injection h3
      rw [← he2] at hev
      exact absurd hev (by decide)
    · obtain ⟨_, hent, _, t0, ht0, hrest⟩ := hB
      have hEq : t ≠ t0 := by
        intro hEq
        rw [hEq, ht0] at ht
        exact MPhase.noConfusion ht
      rw [hrest t hEq] at ht
      injection ht with heid
      subst heid
      rw [hent] at he
      have he2 : storedEntry (fetch 0) = en := by
        have h3 : some (storedEntry (fetch 0)) = some en := he
        injection h3
      rw [← he2] at hev
      have : (storedEntry (fetch 0)).eventSet = false := by
        cases hf : fetch 0 <;> rfl
      rw [this] at hev
      exact Bool.noConfusion hev
    · obtain ⟨hfc, hent, hpn, hthreads⟩ := hC
      have heid : eid = 0 := by
        rcases hthreads t with h | h
        · rw [h] at ht
          injection ht with h2
          exact h2.symm
        · rw [h] at ht
          exact MPhase.noConfusion ht
      subst heid
      rw [hent] at he
      have he2 : doneEntry (fetch 0) = en := by
        have h3 : some (doneEntry (fetch 0)) = some en := he
        injection h3
      constructor
      · intro u
        by_cases hut : u = t
        · rw [hut]
          show updThread s t (.done (waiterOutcome en)) t ≠ .entering
          rw [updThread_self]
          exact fun hcon => MPhase.noConfusion hcon
        · show updThread s t (.done (waiterOutcome en)) u ≠ .entering
          rw [updThread_other s t u _ hut]
          exact hne u
      · refine Or.inr (Or.inr ⟨hfc, hent, hpn, ?_⟩)
        intro u
        by_cases hut : u = t
        · right
          rw [hut]
          show updThread s t (.done (waiterOutcome en)) t = .done (fetch 0)
          rw [updThread_self, ← he2, waiterOutcome_doneEntry]
        · show updThread s t (.done (waiterOutcome en)) u = .waiterWaiting 0 ∨
            updThread s t (.done (waiterOutcome en)) u = .done (fetch 0)
          rw [updThread_other s t u _ hut]
          exact hthreads u

theorem MStep_fetchCalls_mono {n : Nat} (fetch : Nat → Except Exc PyVal)
    {s s2 : MergeSys n} (h : MStep fetch s s2) : s.fetchCalls ≤ s2.fetchCalls := by
  cases h with
  | enterOwner t ht hp => exact Nat.le_refl _
  | enterWaiter t eid ht hp => exact Nat.le_refl _
  | fetchReturn t eid ht => exact Nat.le_succ _
  | publish t eid out ht => exact Nat.le_refl _
  | wake t eid en ht he hev => exact Nat.le_refl _

theorem MRun_fetchCalls_mono {n : Nat} (fetch : Nat → Except Exc PyVal)
    {s s2 : MergeSys n} (h : MRun fetch s s2) : s.fetchCalls ≤ s2.fetchCalls := by
  induction h with
  | refl => exact Nat.le_refl _
  | tail hab hbc ih => exact Nat.le_trans ih (MStep_fetchCalls_mono fetch hbc)

theorem Inv0_run {n : Nat} (fetch : Nat → Except Exc PyVal) {s s2 : MergeSys n}
    (h : MRun fetch s s2) (hinv : Inv0 s) (h0 : s2.fetchCalls = 0) : Inv0 s2 := by
  induction h with
  | refl => exact hinv
  | tail hab hbc ih =>
    rename_i b c
    have hb0 : b.fetchCalls = 0 := by
      have h1 := MStep_fetchCalls_mono fetch hbc
      omega
    exact Inv0_step fetch (ih hb0) hbc h0

theorem Inv1_run {n : Nat} (fetch : Nat → Except Exc PyVal) {s s2 : MergeSys n}
    (h : MRun fetch s s2) (hinv : Inv1 fetch s) : Inv1 fetch s2 := by
  induction h with
  | refl => exact hinv
  | tail hab hbc ih => exact Inv1_step fetch ih hbc

/-!
# Association-list facts

Supporting lemmas about the OrderedDict / dict model. Nodup on the mapped
keys is the data-structure invariant of a Python dict (one binding per key),
which every operation below preserves.
-/

theorem assocLookup_eq_none_of_not_mem (m : List (String × CacheEntry)) (key : String)
    (h : key ∉ m.map Prod.fst) : assocLookup m key = Option.none := by
  induction m with
  | nil => rfl
  | cons x rest ih =>
    obtain ⟨k, e⟩ := x
    simp only [List.map_cons, List.mem_cons] at h
    push_neg at h
    simp only [assocLookup, if_neg (Ne.symm h.1)]
    exact ih h.2

theorem assocLookup_assocErase_self (m : List (String × CacheEntry)) (key : String)
    (hnd : (m.map Prod.fst).Nodup) : assocLookup (assocErase m key) key = Option.none := by
  induction m with
  | nil => rfl
  | cons x rest ih =>
    obtain ⟨k, e⟩ := x
    simp only [List.map_cons, List.nodup_cons] at hnd
    by_cases hk : k = key
    · simp only [assocErase, if_pos hk]
      exact assocLookup_eq_none_of_not_mem rest key (hk ▸ hnd.1)
    · simp only [assocErase, if_neg hk, assocLookup, if_neg hk]
      exact ih hnd.2

theorem assocLookup_append (a b : List (String × CacheEntry)) (key : String) :
    assocLookup (a ++ b) key =
      match assocLookup a key with
      | some e => some e
      | Option.none => assocLookup b key := by
  induction a with
  | nil => rfl
  | cons x rest ih =>
    obtain ⟨k, e⟩ := x
    by_cases hk : k = key
    · simp [assocLookup, if_pos hk]
    · simp only [List.cons_append, assocLookup, if_neg hk]
      exact ih

theorem assocLookup_moveToEnd_self (m : List (String × CacheEntry)) (key : String)
    (hnd : (m.map Prod.fst).Nodup) :
    assocLookup (moveToEnd m key) key = assocLookup m key := by
  unfold moveToEnd
  cases hl : assocLookup m key with
  | none => exact hl
  | some e =>
    rw [assocLookup_append, assocLookup_assocErase_self m key hnd]
    simp [assocLookup]

theorem assocLookup_dictAssign_self (m : List (String × CacheEntry)) (key : String)
    (e : CacheEntry) : assocLookup (dictAssign m key e) key = some e := by
  induction m with
  | nil => simp [dictAssign, assocLookup]
  | cons x rest ih =>
    obtain ⟨k, e0⟩ := x
    by_cases hk : k = key
    · simp [dictAssign, if_pos hk, assocLookup]
    · simp only [dictAssign, if_neg hk, assocLookup, if_neg hk]
      exact ih

theorem load_from_disk_some (c : APICache) (key : String) (now : ℚ) (als : Bool)
    (v : PyVal) (ct ttl : ℚ) (fr : Bool)
    (h : c._load_from_disk key now als = some (v, ct, ttl, fr)) :
    assocLookup c.disk key = some ⟨v, ct, ttl⟩ ∧ fr = decide (now - ct < ttl) ∧
      (fr || als) = true := by
  unfold APICache._load_from_disk at h
  cases hdl : assocLookup c.disk key with
  | none => rw [hdl] at h; cases h
  | some en =>
    rw [hdl] at h
    dsimp only at h
    split at h
    · rename_i hc
      obtain ⟨h4, h5, h6, h7⟩ := by simpa using h
      refine ⟨?_, ?_, ?_⟩
      · rw [← h4, ← h5, ← h6]
      · rw [← h7, ← h5, ← h6]
      · rw [← h7]; exact hc
    · cases h

/-- _load_from_disk reads only the disk tier. -/
theorem load_from_disk_congr (c1 c2 : APICache) (key : String) (now : ℚ) (als : Bool)
    (h : c1.disk = c2.disk) :
    c1._load_from_disk key now als = c2._load_from_disk key now als := by
  unfold APICache._load_from_disk
  rw [h]

/-- When the memory tier yields nothing for the key, get is the disk phase. -/
theorem get_eq_getDisk (c : APICache) (key : String) (now : ℚ) (als : Bool)
    (hmem : c.enable_memory = true → assocLookup c.memory_cache key = Option.none) :
    c.get key now als = c.getDisk key now als := by
  cases hm : c.enable_memory with
  | false => simp [APICache.get, hm]
  | true => simp [APICache.get, hm, hmem hm]

theorem getDisk_none_of_load_none (c : APICache) (key : String) (now : ℚ) (als : Bool)
    (hld : c._load_from_disk key now als = Option.none) :
    (c.getDisk key now als).1 = PyVal.none := by
  cases hd : c.enable_disk with
  | false => simp [APICache.getDisk, hd, APICache.getMiss]
  | true => simp [APICache.getDisk, hd, hld, APICache.getMiss]

theorem getDisk_fst_of_load_some (c : APICache) (key : String) (now : ℚ) (als : Bool)
    (v : PyVal) (ct ttl : ℚ) (fr : Bool) (hd : c.enable_disk = true)
    (hld : c._load_from_disk key now als = some (v, ct, ttl, fr)) :
    (c.getDisk key now als).1 = v := by
  simp [APICache.getDisk, hd, hld]

/-- A non-stale read returns Python None whenever the memory tier holds at
most a None-valued binding for the key and the disk tier can only produce a
None-valued payload. -/
theorem get_fst_none_intro (c : APICache) (key : String) (now : ℚ)
    (hmem : c.enable_memory = true →
      assocLookup c.memory_cache key = Option.none ∨
      ∃ e, assocLookup c.memory_cache key = some e ∧ e.value = PyVal.none)
    (hdk : c.enable_disk = true →
      c._load_from_disk key now false = Option.none ∨
      ∃ ct ttl fr, c._load_from_disk key now false = some (PyVal.none, ct, ttl, fr)) :
    (c.get key now false).1 = PyVal.none := by
  have hdiskside : ∀ c2 : APICache, c2.disk = c.disk → c2.enable_disk = c.enable_disk →
      (c2.getDisk key now false).1 = PyVal.none := by
    intro c2 hdisk hed
    cases hd : c.enable_disk with
    | false =>
      have hc2 : c2.enable_disk = false := hed.trans hd
      simp [APICache.getDisk, hc2, APICache.getMiss]
    | true =>
      have hed2 : c2.enable_disk = true := hed.trans hd
      have hloadeq : c2._load_from_disk key now false = c._load_from_disk key now false :=
        load_from_disk_congr c2 c key now false hdisk
      rcases hdk hd with hnone | ⟨ct, ttl, fr, hsome⟩
      · exact getDisk_none_of_load_none c2 key now false (hloadeq.trans hnone)
      · exact getDisk_fst_of_load_some c2 key now false PyVal.none ct ttl fr hed2
          (hloadeq.trans hsome)
  cases hm : c.enable_memory with
  | false =>
    rw [get_eq_getDisk c key now false (fun ht => absurd ht (by simp [hm]))]
    exact hdiskside c rfl rfl
  | true =>
    rcases hmem hm with hnone | ⟨e, hsome, hval⟩
    · rw [get_eq_getDisk c key now false (fun _ => hnone)]
      exact hdiskside c rfl rfl
    · by_cases hfr : now - e.cached_at < e.ttl
      · simp [APICache.get, hm, hsome, hfr, hval]
      · have hg : c.get key now false =
            APICache.getDisk { c with memory_cache := assocErase c.memory_cache key }
              key now false := by
          simp [APICache.get, hm, hsome, hfr]
        rw [hg]
        exact hdiskside _ rfl rfl

/-- The disk phase of a get with allow_stale = false that returned Python
None keeps returning it on an identical retry: its bookkeeping (stats, a
promotion of a fresh None-valued payload) cannot produce a value later. -/
theorem getDisk_none_stable (c1 : APICache) (key : String) (now : ℚ)
    (hmem : c1.enable_memory = true → assocLookup c1.memory_cache key = Option.none)
    (h1 : (c1.getDisk key now false).1 = PyVal.none) :
    ((c1.getDisk key now false).2.get key now false).1 = PyVal.none := by
  cases hd : c1.enable_disk with
  | false =>
    have hX2 : (c1.getDisk key now false).2 =
        { c1 with stats := { c1.stats with misses := c1.stats.misses + 1 } } := by
      simp [APICache.getDisk, hd, APICache.getMiss]
    apply get_fst_none_intro
    · intro hm2
      rw [hX2] at hm2 ⊢
      exact Or.inl (hmem (show c1.enable_memory = true from hm2))
    · intro hd2
      rw [hX2] at hd2
      exact absurd (show c1.enable_disk = true from hd2) (by simp [hd])
  | true =>
    cases hld : c1._load_from_disk key now false with
    | none =>
      have hX2 : (c1.getDisk key now false).2 =
          { c1 with stats :=
              { c1.stats with
                  misses := c1.stats.misses + 1
                  disk_misses := c1.stats.disk_misses + 1 } } := by
        simp [APICache.getDisk, hd, hld, APICache.getMiss]
      apply get_fst_none_intro
      · intro hm2
        rw [hX2] at hm2 ⊢
        exact Or.inl (hmem (show c1.enable_memory = true from hm2))
      · intro hd2
        rw [hX2]
        exact Or.inl hld
    | some q =>
      obtain ⟨v, ct, ttl, fr⟩ := q
      obtain ⟨hdl, hfr, hda⟩ := load_from_disk_some c1 key now false v ct ttl fr hld
      rw [Bool.or_false] at hda
      have hv : v = PyVal.none := by
        rw [← getDisk_fst_of_load_some c1 key now false v ct ttl fr hd hld]
        exact h1
      subst hv
      subst hda
      cases hm : c1.enable_memory with
      | true =>
        have hX2 : (c1.getDisk key now false).2 =
            { c1 with stats := { c1.stats with disk_hits := c1.stats.disk_hits + 1 }
                      memory_cache :=
                        dictAssign c1.memory_cache key ⟨PyVal.none, ct, ttl⟩ } := by
          simp [APICache.getDisk, hd, hld, hm]
        apply get_fst_none_intro
        · intro hm2
          rw [hX2] at hm2 ⊢
          exact Or.inr ⟨⟨PyVal.none, ct, ttl⟩,
            assocLookup_dictAssign_self c1.memory_cache key ⟨PyVal.none, ct, ttl⟩, rfl⟩
        · intro hd2
          rw [hX2]
          exact Or.inr ⟨ct, ttl, true, hld⟩
      | false =>
        have hX2 : (c1.getDisk key now false).2 =
            { c1 with stats := { c1.stats with disk_hits := c1.stats.disk_hits + 1 } } := by
          simp [APICache.getDisk, hd, hld, hm]
        apply get_fst_none_intro
        · intro hm2
          rw [hX2] at hm2
          exact absurd (show c1.enable_memory = true from hm2) (by simp [hm])
        · intro hd2
          rw [hX2]
          exact Or.inr ⟨ct, ttl, true, hld⟩

/-- A get with allow_stale = false that missed keeps missing: the read's own
bookkeeping (expired-entry deletion, disk promotion, stats) never makes a
later identical read return a value. -/
theorem get_none_stable (c : APICache) (key : String) (now : ℚ)
    (hnd : (c.memory_cache.map Prod.fst).Nodup)
    (h : (c.get key now false).1 = PyVal.none) :
    ((c.get key now false).2.get key now false).1 = PyVal.none := by
  cases hm : c.enable_memory with
  | false =>
    have hg : c.get key now false = c.getDisk key now false := by
      simp [APICache.get, hm]
    rw [hg] at h ⊢
    exact getDisk_none_stable c key now (fun ht => absurd ht (by simp [hm])) h
  | true =>
    cases hl : assocLookup c.memory_cache key with
    | none =>
      have hg : c.get key now false = c.getDisk key now false := by
        simp [APICache.get, hm, hl]
      rw [hg] at h ⊢
      exact getDisk_none_stable c key now (fun _ => hl) h
    | some e =>
      by_cases hfr : now - e.cached_at < e.ttl
      · have hg : c.get key now false =
            (e.value, { c with stats := { c.stats with hits := c.stats.hits + 1 }
                               memory_cache := moveToEnd c.memory_cache key }) := by
          simp [APICache.get, hm, hl, hfr]
        rw [hg] at h ⊢
        simp only at h
        simp [APICache.get, hm, assocLookup_moveToEnd_self c.memory_cache key hnd, hl, hfr, h]
      · have hg : c.get key now false =
            APICache.getDisk { c with memory_cache := assocErase c.memory_cache key }
              key now false := by
          simp [APICache.get, hm, hl, hfr]
        rw [hg] at h ⊢
        exact getDisk_none_stable _ key now
          (fun _ => assocLookup_assocErase_self c.memory_cache key hnd) h

/-- An allow_stale read on a cache whose memory tier has no binding for the
key serves the disk payload even when it is expired. -/
theorem get_stale_from_disk (c2 : APICache) (key : String) (now : ℚ) (en : CacheEntry)
    (hmemnone : c2.enable_memory = true → assocLookup c2.memory_cache key = Option.none)
    (hdl : assocLookup c2.disk key = some en) (hd2 : c2.enable_disk = true)
    (hstale : ¬(now - en.cached_at < en.ttl)) :
    (c2.get key now true).1 = en.value := by
  rw [get_eq_getDisk c2 key now true hmemnone]
  have hload : c2._load_from_disk key now true =
      some (en.value, en.cached_at, en.ttl, false) := by
    unfold APICache._load_from_disk
    rw [hdl]
    simp [hstale]
  exact getDisk_fst_of_load_some c2 key now true en.value en.cached_at en.ttl false hd2 hload

/-- An allow_stale read misses when neither tier has any binding for the key. -/
theorem get_stale_none (c2 : APICache) (key : String) (now : ℚ)
    (hmemnone : c2.enable_memory = true → assocLookup c2.memory_cache key = Option.none)
    (hdl : assocLookup c2.disk key = Option.none) :
    (c2.get key now true).1 = PyVal.none := by
  rw [get_eq_getDisk c2 key now true hmemnone]
  refine getDisk_none_of_load_none c2 key now true ?_
  unfold APICache._load_from_disk
  rw [hdl]

/-- With the disk enabled and a failed load, the disk phase is the miss path. -/
theorem getDisk_of_load_none (c2 : APICache) (key : String) (now : ℚ) (als : Bool)
    (hld : c2._load_from_disk key now als = Option.none) (hd2 : c2.enable_disk = true) :
    c2.getDisk key now als = (PyVal.none,
      { c2 with stats := { c2.stats with
          misses := c2.stats.misses + 1
          disk_misses := c2.stats.disk_misses + 1 } }) := by
  simp [APICache.getDisk, hd2, hld, APICache.getMiss]

/-- On a cache miss with no circuit breaker, the facade reduces to the
fetch-attempt body: the error path reads the stale cache before re-raising. -/
theorem cached_api_call_miss_error (c : APICache) (key : String) (ttl now : ℚ) (e : Exc)
    (hcv : (c.get key now false).1 = PyVal.none) :
    cached_api_call c Option.none true key ttl now (.error e) =
      (let sv := (c.get key now false).2.get key now true
       if sv.1 ≠ PyVal.none then ⟨.ok sv.1, sv.2, Option.none, true⟩
       else ⟨.error e, sv.2, Option.none, true⟩) := by
  simp [cached_api_call, facadeAttempt, hcv]

/-!
# Claims

Each claim of the specification gets one theorem below (plus a witness for
hypothesised theorems, and a counterexample where the claim fails on the
code).
-/

/-- C1: single-flight coalescing in DataMerger.merge_stock_data. If all N
callers for one key enter merge_stock_data while the underlying fetch is
still slow (no fetch has completed before the last caller registered), then
in any complete interleaving the underlying fetch is invoked exactly once,
and every caller finishes with the one shared outcome of that fetch — the
owner's value, or the owner's stored exception re-raised by each waiter. -/
theorem C1_single_flight {n : Nat} (fetch : Nat → Except Exc PyVal)
    (s1 sf : MergeSys n) (hn : 0 < n)
    (h1 : MRun fetch (initSys n) s1)
    (hmid : ∀ t, s1.threads t ≠ .entering)
    (hfc : s1.fetchCalls = 0)
    (h2 : MRun fetch s1 sf)
    (hdone : ∀ t, ∃ o, sf.threads t = .done o) :
    sf.fetchCalls = 1 ∧ ∀ t, sf.threads t = .done (fetch 0) := by
  have hinv0 : Inv0 s1 :=
    Inv0_run fetch h1 ⟨rfl, Or.inl ⟨rfl, rfl, fun _ => rfl⟩⟩ hfc
  have hA : PhaseA s1 := by
    obtain ⟨hfc0, hcase⟩ := hinv0
    rcases hcase with ⟨_, _, hall⟩ | ⟨he, hps, t0, ht0, hrest⟩
    · exact absurd (hall ⟨0, hn⟩) (hmid ⟨0, hn⟩)
    · refine ⟨hfc0, he, hps, t0, ht0, fun t ht => ?_⟩
      rcases hrest t ht with h | h
      · exact absurd h (hmid t)
      · exact h
  have hinv1 : Inv1 fetch sf := Inv1_run fetch h2 ⟨hmid, Or.inl hA⟩
  obtain ⟨_, hphase⟩ := hinv1
  rcases hphase with hA2 | hB2 | hC2
  · obtain ⟨_, _, _, t0, ht0, _⟩ := hA2
    obtain ⟨o, ho⟩ := hdone t0
    rw [ho] at ht0
    exact MPhase.noConfusion ht0
  · obtain ⟨_, _, _, t0, ht0, _⟩ := hB2
    obtain ⟨o, ho⟩ := hdone t0
    rw [ho] at ht0
    exact MPhase.noConfusion ht0
  · obtain ⟨hfc1, _, _, hthreads⟩ := hC2
    refine ⟨hfc1, fun t => ?_⟩
    rcases hthreads t with h | h
    · obtain ⟨o, ho⟩ := hdone t
      rw [ho] at h
      exact MPhase.noConfusion h
    · exact h

/-- Witness for C1: two concrete callers, the first becoming owner and the
second a waiter before the fetch completes; the run finishes with one fetch
and both callers holding its value. -/
theorem C1_single_flight_witness :
    ∃ sf : MergeSys 2,
      (MRun (fun _ => Except.ok (PyVal.intv 42)) (initSys 2) sf) ∧
      sf.fetchCalls = 1 ∧
      ∀ t, sf.threads t = .done (Except.ok (PyVal.intv 42)) := by
  classical
  set fetch : Nat → Except Exc PyVal := fun _ => Except.ok (PyVal.intv 42) with hfetch
  have step1 : MStep fetch (initSys 2)
      { entries := [blankEntry], pending := some 0
        threads := updThread (initSys 2) 0 (.ownerFetching 0), fetchCalls := 0 } := by
    exact MStep.enterOwner (initSys 2) 0 rfl rfl
  set s1a : MergeSys 2 :=
    { entries := [blankEntry], pending := some 0
      threads := updThread (initSys 2) 0 (.ownerFetching 0), fetchCalls := 0 } with hs1a
  have step2 : MStep fetch s1a { s1a with threads := updThread s1a 1 (.waiterWaiting 0) } :=
    MStep.enterWaiter s1a 1 0 rfl rfl
  set s1 : MergeSys 2 := { s1a with threads := updThread s1a 1 (.waiterWaiting 0) } with hs1
  have step3 : MStep fetch s1
      { entries := setEntry s1.entries 0 (fun e => storeOutcome e (fetch s1.fetchCalls))
        pending := s1.pending
        threads := updThread s1 0 (.ownerPublishing 0 (fetch s1.fetchCalls))
        fetchCalls := s1.fetchCalls + 1 } :=
    MStep.fetchReturn s1 0 0 rfl
  set s2 : MergeSys 2 :=
    { entries := setEntry s1.entries 0 (fun e => storeOutcome e (fetch s1.fetchCalls))
      pending := s1.pending
      threads := updThread s1 0 (.ownerPublishing 0 (fetch s1.fetchCalls))
      fetchCalls := s1.fetchCalls + 1 } with hs2
  have step4 : MStep fetch s2
      { entries := setEntry s2.entries 0 (fun e => { e with eventSet := true })
        pending := Option.none
        threads := updThread s2 0 (.done (fetch 0))
        fetchCalls := s2.fetchCalls } :=
    MStep.publish s2 0 0 (fetch 0) rfl
  set s3 : MergeSys 2 :=
    { entries := setEntry s2.entries 0 (fun e => { e with eventSet := true })
      pending := Option.none
      threads := updThread s2 0 (.done (fetch 0))
      fetchCalls := s2.fetchCalls } with hs3
  have step5 : MStep fetch s3 { s3 with threads := updThread s3 1 (.done (waiterOutcome
      (doneEntry (fetch 0)))) } :=
    MStep.wake s3 1 0 (doneEntry (fetch 0)) rfl rfl rfl
  set sf : MergeSys 2 := { s3 with threads := updThread s3 1 (.done (waiterOutcome
      (doneEntry (fetch 0)))) } with hsf
  have hrun1 : MRun fetch (initSys 2) s1 :=
    Relation.ReflTransGen.head step1 (Relation.ReflTransGen.head step2 .refl)
  have hrun2 : MRun fetch s1 sf :=
    Relation.ReflTransGen.head step3 (Relation.ReflTransGen.head step4
      (Relation.ReflTransGen.head step5 .refl))
  have hconc := C1_single_flight fetch s1 sf (by norm_num) hrun1
    (by
      intro t
      fin_cases t <;> simp [hs1, hs1a, updThread, initSys])
    rfl hrun2
    (by
      intro t
      fin_cases t
      · exact ⟨fetch 0, by simp [hsf, hs3, updThread]⟩
      · exact ⟨waiterOutcome (doneEntry (fetch 0)), by simp [hsf, updThread]⟩)
  exact ⟨sf, Relation.ReflTransGen.trans hrun1 hrun2, hconc.1, hconc.2⟩

/-- The error path of the fetch attempt serves the stale disk payload. -/
theorem facade_attempt_stale_serve (X : APICache) (key : String) (ttl now : ℚ) (e : Exc)
    (en : CacheEntry)
    (hmemnone : X.enable_memory = true → assocLookup X.memory_cache key = Option.none)
    (hdl : assocLookup X.disk key = some en) (hd2 : X.enable_disk = true)
    (hstale : ¬(now - en.cached_at < en.ttl)) (hval : en.value ≠ PyVal.none) :
    (let sv := X.get key now true
     if sv.1 ≠ PyVal.none then (⟨.ok sv.1, sv.2, Option.none, true⟩ : FacadeOut)
     else ⟨.error e, sv.2, Option.none, true⟩).result = .ok en.value ∧
    (let sv := X.get key now true
     if sv.1 ≠ PyVal.none then (⟨.ok sv.1, sv.2, Option.none, true⟩ : FacadeOut)
     else ⟨.error e, sv.2, Option.none, true⟩).called = true := by
  have hsv := get_stale_from_disk X key now en hmemnone hdl hd2 hstale
  simp [hsv, hval]

theorem facade_attempt_stale_miss (X : APICache) (key : String) (ttl now : ℚ) (e : Exc)
    (hmemnone : X.enable_memory = true → assocLookup X.memory_cache key = Option.none)
    (hdln : assocLookup X.disk key = Option.none) :
    (let sv := X.get key now true
     if sv.1 ≠ PyVal.none then (⟨.ok sv.1, sv.2, Option.none, true⟩ : FacadeOut)
     else ⟨.error e, sv.2, Option.none, true⟩).result = .error e ∧
    (let sv := X.get key now true
     if sv.1 ≠ PyVal.none then (⟨.ok sv.1, sv.2, Option.none, true⟩ : FacadeOut)
     else ⟨.error e, sv.2, Option.none, true⟩).called = true := by
  have hsv := get_stale_none X key now hmemnone hdln
  simp [hsv]

/-- C3: when the cache holds no fresh entry for the key and the wrapped
function raises after exhausting its attempts, the facade with
allow_stale_on_error enabled (both tiers enabled, as in the global cache the
facade uses) returns the stale disk payload for the key when one exists, and
propagates the error only when no entry exists for the key in either tier. -/
theorem C3_stale_fallback (c : APICache) (key : String) (ttl now : ℚ) (e : Exc)
    (hm : c.enable_memory = true) (hd : c.enable_disk = true)
    (hnd : (c.memory_cache.map Prod.fst).Nodup)
    (hnofresh : ∀ en0, assocLookup c.memory_cache key = some en0 →
      ¬(now - en0.cached_at < en0.ttl)) :
    (∀ en, assocLookup c.disk key = some en → ¬(now - en.cached_at < en.ttl) →
      en.value ≠ PyVal.none →
      (cached_api_call c Option.none true key ttl now (.error e)).result = .ok en.value ∧
      (cached_api_call c Option.none true key ttl now (.error e)).called = true) ∧
    (assocLookup c.memory_cache key = Option.none →
      assocLookup c.disk key = Option.none →
      (cached_api_call c Option.none true key ttl now (.error e)).result = .error e ∧
      (cached_api_call c Option.none true key ttl now (.error e)).called = true) := by
  cases hl : assocLookup c.memory_cache key with
  | some en0 =>
    have hstale0 : ¬(now - en0.cached_at < en0.ttl) := hnofresh en0 hl
    have hget1 : c.get key now false =
        APICache.getDisk { c with memory_cache := assocErase c.memory_cache key }
          key now false := by
      simp [APICache.get, hm, hl, hstale0]
    constructor
    · intro en hdl hstale hval
      have hload0 : APICache._load_from_disk
          { c with memory_cache := assocErase c.memory_cache key } key now false =
          Option.none := by
        unfold APICache._load_from_disk
        rw [show ({ c with memory_cache := assocErase c.memory_cache key } : APICache).disk
          = c.disk from rfl, hdl]
        simp [hstale]
      have hpair : c.get key now false = (PyVal.none,
          { { c with memory_cache := assocErase c.memory_cache key } with
              stats := { c.stats with
                  misses := c.stats.misses + 1
                  disk_misses := c.stats.disk_misses + 1 } }) := by
        rw [hget1, getDisk_of_load_none _ key now false hload0 hd]
      have hcv : (c.get key now false).1 = PyVal.none := by rw [hpair]
      have hAmem : (c.get key now false).2.enable_memory = true →
          assocLookup (c.get key now false).2.memory_cache key = Option.none := by
        rw [hpair]
        exact fun _ => assocLookup_assocErase_self c.memory_cache key hnd
      have hAdl : assocLookup (c.get key now false).2.disk key = some en := by
        rw [hpair]; exact hdl
      have hAd : (c.get key now false).2.enable_disk = true := by
        rw [hpair]; exact hd
      rw [cached_api_call_miss_error c key ttl now e hcv]
      exact ⟨(facade_attempt_stale_serve _ key ttl now e en hAmem hAdl hAd hstale hval).1,
        (facade_attempt_stale_serve _ key ttl now e en hAmem hAdl hAd hstale hval).2⟩
    · intro hmn _
      cases hmn
  | none =>
    have hget1 : c.get key now false = c.getDisk key now false :=
      get_eq_getDisk c key now false (fun _ => hl)
    have hbody : ∀ hdn : assocLookup c.disk key = Option.none,
        c._load_from_disk key now false = Option.none := by
      intro hdn
      unfold APICache._load_from_disk
      rw [hdn]
    constructor
    · intro en hdl hstale hval
      have hload0 : c._load_from_disk key now false = Option.none := by
        unfold APICache._load_from_disk
        rw [hdl]
        simp [hstale]
      have hpair : c.get key now false = (PyVal.none,
          { c with stats := { c.stats with
              misses := c.stats.misses + 1
              disk_misses := c.stats.disk_misses + 1 } }) := by
        rw [hget1, getDisk_of_load_none _ key now false hload0 hd]
      have hcv : (c.get key now false).1 = PyVal.none := by rw [hpair]
      have hAmem : (c.get key now false).2.enable_memory = true →
          assocLookup (c.get key now false).2.memory_cache key = Option.none := by
        rw [hpair]
        exact fun _ => hl
      have hAdl : assocLookup (c.get key now false).2.disk key = some en := by
        rw [hpair]; exact hdl
      have hAd : (c.get key now false).2.enable_disk = true := by
        rw [hpair]; exact hd
      rw [cached_api_call_miss_error c key ttl now e hcv]
      exact ⟨(facade_attempt_stale_serve _ key ttl now e en hAmem hAdl hAd hstale hval).1,
        (facade_attempt_stale_serve _ key ttl now e en hAmem hAdl hAd hstale hval).2⟩
    · intro _ hdn
      have hload0 : c._load_from_disk key now false = Option.none := hbody hdn
      have hpair : c.get key now false = (PyVal.none,
          { c with stats := { c.stats with
              misses := c.stats.misses + 1
              disk_misses := c.stats.disk_misses + 1 } }) := by
        rw [hget1, getDisk_of_load_none _ key now false hload0 hd]
      have hcv : (c.get key now false).1 = PyVal.none := by rw [hpair]
      have hAmem : (c.get key now false).2.enable_memory = true →
          assocLookup (c.get key now false).2.memory_cache key = Option.none := by
        rw [hpair]
        exact fun _ => hl
      have hAdln : assocLookup (c.get key now false).2.disk key = Option.none := by
        rw [hpair]; exact hdn
      rw [cached_api_call_miss_error c key ttl now e hcv]
      exact ⟨(facade_attempt_stale_miss _ key ttl now e hAmem hAdln).1,
        (facade_attempt_stale_miss _ key ttl now e hAmem hAdln).2⟩

/-- Witness for C3 at a concrete cache whose only copy of the key is an
expired disk entry. -/
theorem C3_stale_fallback_witness :
    let c0 : APICache := { memory_cache := [], disk := [("k", ⟨PyVal.intv 5, 0, 10⟩)]
                           default_ttl := 3600, enable_disk := true, enable_memory := true
                           max_entries := 5000, stats := ⟨0, 0, 0, 0, 0, 0⟩ }
    let e0 : Exc := .generic Option.none "upstream down"
    (cached_api_call c0 Option.none true "k" 3600 100 (.error e0)).result =
      .ok (PyVal.intv 5) ∧
    (cached_api_call c0 Option.none true "k" 3600 100 (.error e0)).called = true := by
  intro c0 e0
  refine (C3_stale_fallback c0 "k" 3600 100 e0 rfl rfl (by simp)
    (fun en0 hen0 => Option.noConfusion hen0)).1 ⟨PyVal.intv 5, 0, 10⟩ ?_ ?_ ?_
  · simp [assocLookup]
  · norm_num
  · decide

/-- Whenever the facade reaches the try block, the wrapped function has been
invoked, whatever the outcome. -/
theorem facadeAttempt_called (c : APICache) (cb : Option CircuitBreaker) (aso : Bool)
    (key : String) (ttl now : ℚ) (fres : Except Exc PyVal) :
    (facadeAttempt c cb aso key ttl now fres).called = true := by
  cases fres with
  | ok r => rfl
  | error e =>
    simp only [facadeAttempt]
    split
    · split <;> rfl
    · rfl

/-- On a cache miss with no breaker, the facade invokes the wrapped function. -/
theorem cached_api_call_called_of_miss (c : APICache) (key : String) (ttl now : ℚ)
    (fres : Except Exc PyVal) (hmiss : (c.get key now false).1 = PyVal.none) :
    (cached_api_call c Option.none true key ttl now fres).called = true := by
  have h : cached_api_call c Option.none true key ttl now fres =
      facadeAttempt (c.get key now false).2 Option.none true key ttl now fres := by
    simp [cached_api_call, hmiss]
  rw [h]
  exact facadeAttempt_called _ _ _ _ _ _ _

/-- C10: when the wrapped function returns a falsy result (None, False, 0,
empty string or empty container) on a cache miss, the facade returns that
result to the caller but never stores it (only truthy results are cached),
so an immediately repeated identical call misses again and invokes the
wrapped function a second time instead of hitting the cache. -/
theorem C10_falsy_never_cached (c : APICache) (key : String) (ttl now : ℚ) (v : PyVal)
    (fres2 : Except Exc PyVal)
    (hnd : (c.memory_cache.map Prod.fst).Nodup)
    (hmiss : (c.get key now false).1 = PyVal.none)
    (hfalsy : v.truthy = false) :
    cached_api_call c Option.none true key ttl now (.ok v) =
      ⟨.ok v, (c.get key now false).2, Option.none, true⟩ ∧
    (cached_api_call (c.get key now false).2 Option.none true key ttl now fres2).called
      = true := by
  constructor
  · simp [cached_api_call, facadeAttempt, hmiss, hfalsy]
  · exact cached_api_call_called_of_miss _ key ttl now fres2
      (get_none_stable c key now hnd hmiss)

/-- Witness for C10 on the empty cache with a falsy (zero) result. -/
theorem C10_falsy_never_cached_witness :
    let c0 := APICache.mk0 3600 true true 5000
    cached_api_call c0 Option.none true "k" 3600 0 (.ok (PyVal.intv 0)) =
      ⟨.ok (PyVal.intv 0), (c0.get "k" 0 false).2, Option.none, true⟩ ∧
    (cached_api_call (c0.get "k" 0 false).2 Option.none true "k" 3600 0
      (.ok (PyVal.intv 0))).called = true := by
  intro c0
  exact C10_falsy_never_cached c0 "k" 3600 0 (PyVal.intv 0) (.ok (PyVal.intv 0))
    List.nodup_nil rfl (by decide)

/-- C4: only throttling-classified exceptions are counted by the circuit
breaker: for any exception not classified as a rate-limit error,
record_failure leaves the breaker — its state, failure window and
opened_until — completely unchanged, so generic failures can never open the
circuit. -/
theorem C4_generic_failures_ignored (b : CircuitBreaker) (exc : Exc) (now : ℚ)
    (h : is_rate_limit_error exc = false) :
    b.record_failure exc now = b ∧
    (b.record_failure exc now).state = b.state ∧
    (b.record_failure exc now).failures = b.failures ∧
    (b.record_failure exc now).opened_until = b.opened_until ∧
    (b.state ≠ .open → (b.record_failure exc now).state ≠ .open) := by
  have heq : b.record_failure exc now = b := by
    unfold CircuitBreaker.record_failure
    simp [h]
  refine ⟨heq, by rw [heq], by rw [heq], by rw [heq], by rw [heq]; exact id⟩

/-- Witness for C4 at a concrete non-throttling exception. -/
theorem C4_generic_failures_ignored_witness :
    is_rate_limit_error (.generic Option.none "connection reset by peer") = false ∧
    (CircuitBreaker.mk0 3 300 300).record_failure
      (.generic Option.none "connection reset by peer") 10 = CircuitBreaker.mk0 3 300 300 :=
  ⟨by decide, (C4_generic_failures_ignored _ _ _ (by decide)).1⟩

/-- C2 counterexample: with failure_threshold = 3, window = 300 and
recovery_timeout = 300, three throttling failures at times 0, 1, 2 open the
breaker; at time 302 (past the recovery deadline) a first allow_request
returns true and moves the state to HALF_OPEN — but a second allow_request
is then also allowed (the HALF_OPEN state short-circuits the OPEN branch),
refuting the claim that exactly one HALF_OPEN probe request is let through. -/
theorem C2_counterexample :
    let b0 := CircuitBreaker.mk0 3 300 300
    let e : Exc := .generic (some 429) "too many requests"
    let b3 := ((b0.record_failure e 0).record_failure e 1).record_failure e 2
    let p1 := b3.allow_request 302
    let p2 := p1.2.allow_request 302
    b3.state = .open ∧ p1.1 = true ∧ p1.2.state = .halfOpen ∧ p2.1 = true := by
  norm_num +decide [CircuitBreaker.mk0, CircuitBreaker.record_failure, CircuitBreaker.prune,
    CircuitBreaker.allow_request, List.dropWhile]

/-- C2 amended: with failure_threshold = 3 and window_seconds = 300,
three throttling failures within 300 seconds move the breaker from CLOSED
to OPEN with opened_until = t3 + recovery_timeout; every allow_request
before that deadline returns false and leaves the breaker OPEN; the first
allow_request at or past the deadline returns true and moves the breaker to
HALF_OPEN — in which state every further allow_request is also allowed (the
code does not limit the probe to a single request) — and a successful probe
(record_success) returns the breaker to CLOSED with the failure history
cleared. -/
theorem C2_amended (t1 t2 t3 R t t' u : ℚ) (e1 e2 e3 : Exc)
    (h12 : t1 ≤ t2) (h23 : t2 ≤ t3) (hw : t3 - t1 ≤ 300)
    (he1 : is_rate_limit_error e1 = true) (he2 : is_rate_limit_error e2 = true)
    (he3 : is_rate_limit_error e3 = true)
    (ht : t < t3 + R) (ht' : t' ≥ t3 + R) :
    let b0 := CircuitBreaker.mk0 3 300 R
    let b3 := ((b0.record_failure e1 t1).record_failure e2 t2).record_failure e3 t3
    b3.state = .open ∧ b3.opened_until = t3 + R ∧
    b3.allow_request t = (false, b3) ∧
    (b3.allow_request t').1 = true ∧ (b3.allow_request t').2.state = .halfOpen ∧
    ((b3.allow_request t').2.allow_request u).1 = true ∧
    (b3.allow_request t').2.record_success.state = .closed ∧
    (b3.allow_request t').2.record_success.failures = [] := by
  have hp1 : ¬(t2 - t1 > 300) := by linarith
  have hp2 : ¬(t3 - t1 > 300) := by linarith
  have hp3 : ¬(t3 - t2 > 300) := by linarith
  have hb3 : ((((CircuitBreaker.mk0 3 300 R).record_failure e1 t1).record_failure e2
      t2).record_failure e3 t3) =
      { failure_threshold := 3, window_seconds := 300, recovery_timeout := R
        failures := [t1, t2, t3], state := .open, opened_until := t3 + R } := by
    simp [CircuitBreaker.mk0, CircuitBreaker.record_failure, CircuitBreaker.prune,
      List.dropWhile, he1, he2, he3, hp1, hp2, hp3]
  intro b0 b3
  rw [show b3 = (((CircuitBreaker.mk0 3 300 R).record_failure e1 t1).record_failure e2
      t2).record_failure e3 t3 from rfl, hb3]
  have hta : ¬(t ≥ t3 + R) := by linarith
  refine ⟨rfl, rfl, ?_, ?_, ?_, ?_, ?_, ?_⟩ <;>
    simp [CircuitBreaker.allow_request, CircuitBreaker.record_success, hta, ht']

/-- Witness for C2 amended at concrete failure and probe times. -/
theorem C2_amended_witness :
    let b0 := CircuitBreaker.mk0 3 300 300
    let e : Exc := .generic (some 429) "too many requests"
    let b3 := ((b0.record_failure e 0).record_failure e 1).record_failure e 2
    b3.state = .open ∧ b3.opened_until = 2 + 300 ∧
    b3.allow_request 150 = (false, b3) ∧
    (b3.allow_request 302).1 = true ∧ (b3.allow_request 302).2.state = .halfOpen ∧
    ((b3.allow_request 302).2.allow_request 302).1 = true ∧
    (b3.allow_request 302).2.record_success.state = .closed ∧
    (b3.allow_request 302).2.record_success.failures = [] :=
  C2_amended 0 1 2 300 150 302 302 _ _ _ (by norm_num) (by norm_num) (by norm_num)
    (by decide) (by decide) (by decide) (by norm_num) (by norm_num)

/-- The memory-only cache of the C9 scenario (max_entries = 2) after the
three inserts A, B, C at time 0 with the default TTL. -/
def c9After3Sets : APICache :=
  (((APICache.mk0 3600 false true 2).set "A" (PyVal.intv 1) Option.none 0).set "B"
    (PyVal.intv 2) Option.none 0).set "C" (PyVal.intv 3) Option.none 0

/-- C9: with the memory cache configured with max_entries = 2 (and the disk
tier disabled, as the scenario concerns the memory tier), inserting A, B, C
in order evicts A as least recently used: get A is a miss (the binding is
gone and Python None is returned) while get B and get C return their stored
values. -/
theorem C9_lru_eviction :
    assocLookup c9After3Sets.memory_cache "A" = Option.none ∧
    (c9After3Sets.get "A" 0 false).1 = PyVal.none ∧
    ((c9After3Sets.get "A" 0 false).2).stats.misses = 1 ∧
    (((c9After3Sets.get "A" 0 false).2).get "B" 0 false).1 = PyVal.intv 2 ∧
    ((((c9After3Sets.get "A" 0 false).2).get "B" 0 false).2.get "C" 0 false).1
      = PyVal.intv 3 := by
  norm_num +decide [c9After3Sets, APICache.mk0, APICache.set, APICache.get,
    APICache.getDisk, APICache.getMiss, assocLookup, assocErase, dictAssign,
    moveToEnd, evictLRU]

/-- C5 counterexample: with the decorator defaults (initial_delay = 2.0,
max_attempts = 3 here to see two waits, zero jitter draws) and an ordinary
failure on every attempt, the wait after the first failed attempt and the
wait after the second failed attempt are both 2.0 seconds — the second wait
is not strictly larger than the first, because the hand-tuned schedule
assigns delay = 2.0 after the first failure and only the wait after the
third failure uses the 5.0 step. -/
theorem C5_counterexample :
    let env : RetryEnv :=
      ⟨fun _ => .error (.generic Option.none "boom"), fun _ => 0, fun _ => 0⟩
    let out := retry_with_backoff ⟨3, 2, 2, 1/5, false⟩ env Option.none
    out.sleeps = [2, 2] ∧ out.result = .error (.generic Option.none "boom") ∧
    ¬ (out.sleeps.getD 1 0 > out.sleeps.getD 0 0) := by
  norm_num +decide [retry_with_backoff, retryGo, RequestBudget.consume]

/-- C5 amended: for ordinary (non-throttling) failures on every attempt
(shown for max_attempts = 6), the wait after the first failed attempt is
initial_delay, the wait after the second failed attempt is the hand-tuned
2.0 seconds (equal to, not strictly larger than, the default initial_delay
of 2.0; strictly larger only when initial_delay < 2.0), the wait after the
third is the hand-tuned 5.0 seconds, and later waits multiply by
backoff_factor (5·bf, 5·bf², …); each wait adds the uniform jitter draw
scaled by jitter times the current delay; exhausting max_attempts re-raises
the last failure to the caller. -/
theorem C5_amended (d0 bf j : ℚ) (u : Nat → ℚ) (e : Nat → Exc)
    (hd0 : 0 < d0) (hbf : 0 < bf)
    (he : ∀ k, is_rate_limit_error (e k) = false) :
    let env : RetryEnv := ⟨fun k => .error (e k), u, fun _ => 0⟩
    let out := retry_with_backoff ⟨6, d0, bf, j, false⟩ env Option.none
    out.result = .error (e 5) ∧ out.calls = 6 ∧
    out.sleeps = [d0 + u 1 * (d0 * j), 2 + u 2 * (2 * j), 5 + u 3 * (5 * j),
      5 * bf + u 4 * (5 * bf * j), 5 * bf * bf + u 5 * (5 * bf * bf * j)] := by
  have h5bf : (0 : ℚ) < 5 * bf := by positivity
  have h5bf2 : (0 : ℚ) < 5 * bf * bf := by positivity
  norm_num [retry_with_backoff, retryGo, he, hd0, h5bf, h5bf2, mul_assoc]
  exact fun hbf0 => absurd hbf0 hbf.ne'

/-- Witness for C5 amended at initial_delay = 1, backoff_factor = 2,
jitter draws all zero. -/
theorem C5_amended_witness :
    let env : RetryEnv :=
      ⟨fun k => .error ((fun _ => Exc.generic Option.none "boom") k), fun _ => (0 : ℚ),
        fun _ => 0⟩
    let out := retry_with_backoff ⟨6, 1, 2, 1/5, false⟩ env Option.none
    out.result = .error (Exc.generic Option.none "boom") ∧ out.calls = 6 ∧
    out.sleeps = [1 + 0 * (1 * (1/5)), 2 + 0 * (2 * (1/5)), 5 + 0 * (5 * (1/5)),
      5 * 2 + 0 * (5 * 2 * (1/5)), 5 * 2 * 2 + 0 * (5 * 2 * 2 * (1/5))] :=
  C5_amended 1 2 (1/5) (fun _ => 0) (fun _ => .generic Option.none "boom")
    (by norm_num) (by norm_num) (fun _ => rfl)

/-- C6 counterexample: with an exhausted request budget and max_attempts = 2,
the wrapped function is never invoked and RetryBudgetExceeded is what the
caller finally sees, but the failure is not fast: the retry loop catches its
own RetryBudgetExceeded and still sleeps the 2.0-second backoff delay before
the next attempt, refuting the no-further-retry-delays part of the claim. -/
theorem C6_counterexample :
    let env : RetryEnv := ⟨fun _ => .ok (.intv 1), fun _ => 0, fun _ => 0⟩
    let out := retry_with_backoff ⟨2, 2, 2, 1/5, false⟩ env (some ⟨3, 3⟩)
    out.calls = 0 ∧
    out.result = .error (.retryBudgetExceeded "Request retry budget exhausted") ∧
    out.sleeps = [2] := by
  norm_num +decide [retry_with_backoff, retryGo, RequestBudget.consume]

/-- The RetryBudgetExceeded the loop raises is not a throttling signal. -/
theorem rbe_not_rate_limit :
    is_rate_limit_error (.retryBudgetExceeded "Request retry budget exhausted") = false := by
  decide

/-- Budget accounting through the retry loop: the context budget's attempt
counter grows by exactly the number of wrapped-function invocations, and its
limit is never changed. -/
theorem retryGo_budget_accounting (cfg : RetryConfig) (env : RetryEnv) :
    ∀ (f attempt : Nat) (delay : ℚ) (b : RequestBudget) (calls : Nat)
      (sleeps : List ℚ) (last : Option Exc),
      ∃ b1, (retryGo cfg env f attempt delay (some b) calls sleeps last).budget = some b1 ∧
        b1.max_attempts = b.max_attempts ∧
        b1.attempts + calls =
          b.attempts + (retryGo cfg env f attempt delay (some b) calls sleeps last).calls := by
  intro f
  induction f with
  | zero =>
    intro attempt delay b calls sleeps last
    exact ⟨b, rfl, rfl, rfl⟩
  | succ f ih =>
    intro attempt delay b calls sleeps last
    by_cases hb : b.attempts ≥ b.max_attempts
    · simp only [retryGo, RequestBudget.consume, if_pos hb, rbe_not_rate_limit,
        Bool.false_eq_true, if_false]
      by_cases ha : attempt < cfg.max_attempts
      · simp only [if_pos ha]
        exact ih _ _ b calls _ _
      · simp only [if_neg ha]
        exact ih _ _ b calls _ _
    · simp only [retryGo, RequestBudget.consume, if_neg hb, if_true]
      cases ho : env.outcomes calls with
      | ok r =>
        exact ⟨_, rfl, rfl, by dsimp only; omega⟩
      | error ex =>
        by_cases hre : is_rate_limit_error ex = true
        · simp only [hre, if_pos rfl, if_true]
          by_cases hco : (cfg.retry_on_rate_limit && decide (attempt < cfg.max_attempts)) = true
          · simp only [hco, if_true]
            obtain ⟨b2, h1, h2, h3⟩ := ih (attempt + 1) delay
              { b with attempts := b.attempts + 1 } (calls + 1) _ _
            refine ⟨b2, ?_, ?_, ?_⟩
            · exact h1
            · exact h2
            · dsimp only at h3 ⊢
              omega
          · simp only [hco, if_false, Bool.false_eq_true]
            exact ⟨_, rfl, rfl, by dsimp only; omega⟩
        · simp only [hre, Bool.false_eq_true, if_false]
          by_cases ha : attempt < cfg.max_attempts
          · simp only [if_pos ha]
            obtain ⟨b2, h1, h2, h3⟩ := ih (attempt + 1) _
              { b with attempts := b.attempts + 1 } (calls + 1) _ _
            refine ⟨b2, ?_, ?_, ?_⟩
            · exact h1
            · exact h2
            · dsimp only at h3 ⊢
              omega
          · simp only [if_neg ha]
            obtain ⟨b2, h1, h2, h3⟩ := ih (attempt + 1) delay
              { b with attempts := b.attempts + 1 } (calls + 1) _ _
            refine ⟨b2, ?_, ?_, ?_⟩
            · exact h1
            · exact h2
            · dsimp only at h3 ⊢
              omega

/-- With an exhausted budget the loop never invokes the wrapped function,
leaves the budget untouched, and finally re-raises RetryBudgetExceeded. -/
theorem retryGo_exhausted (cfg : RetryConfig) (env : RetryEnv) :
    ∀ (f attempt : Nat) (delay : ℚ) (b : RequestBudget) (calls : Nat)
      (sleeps : List ℚ) (last : Option Exc), b.attempts ≥ b.max_attempts → 1 ≤ f →
      (retryGo cfg env f attempt delay (some b) calls sleeps last).result =
        .error (.retryBudgetExceeded "Request retry budget exhausted") ∧
      (retryGo cfg env f attempt delay (some b) calls sleeps last).calls = calls ∧
      (retryGo cfg env f attempt delay (some b) calls sleeps last).budget = some b := by
  intro f
  induction f with
  | zero =>
    intro _ _ _ _ _ _ _ hf
    exact absurd hf (by omega)
  | succ f ih =>
    intro attempt delay b calls sleeps last hb _
    simp only [retryGo, RequestBudget.consume, if_pos hb, rbe_not_rate_limit,
      Bool.false_eq_true, if_false]
    cases f with
    | zero =>
      split <;> simp [retryGo]
    | succ f2 =>
      by_cases ha : attempt < cfg.max_attempts
      · simp only [if_pos ha]
        exact ih _ _ b calls _ _ hb (by omega)
      · simp only [if_neg ha]
        exact ih _ _ b calls _ _ hb (by omega)

/-- C6 amended: the request-scoped budget is consumed by every attempt that
invokes the wrapped function, regardless of which resource the call targets
(the final attempt counter is the initial one plus the number of
invocations, and the limit is unchanged); once the budget is exhausted no
further attempt invokes the wrapped function and RetryBudgetExceeded is the
error the caller finally receives — but it is raised inside the retry
loop's try block and caught like an ordinary failure, so the loop still
sleeps its backoff delays and only re-raises RetryBudgetExceeded after
max_attempts iterations, rather than failing fast. -/
theorem C6_amended (cfg : RetryConfig) (env : RetryEnv) (b0 : RequestBudget)
    (hmax : 1 ≤ cfg.max_attempts) :
    (∃ b1, (retry_with_backoff cfg env (some b0)).budget = some b1 ∧
      b1.max_attempts = b0.max_attempts ∧
      b1.attempts = b0.attempts + (retry_with_backoff cfg env (some b0)).calls) ∧
    (b0.attempts ≥ b0.max_attempts →
      (retry_with_backoff cfg env (some b0)).result =
        .error (.retryBudgetExceeded "Request retry budget exhausted") ∧
      (retry_with_backoff cfg env (some b0)).calls = 0 ∧
      (retry_with_backoff cfg env (some b0)).budget = some b0) := by
  simp only [retry_with_backoff]
  constructor
  · obtain ⟨b1, h1, h2, h3⟩ := retryGo_budget_accounting cfg env cfg.max_attempts 1
      cfg.initial_delay b0 0 [] Option.none
    exact ⟨b1, h1, h2, by omega⟩
  · intro hb
    exact retryGo_exhausted cfg env cfg.max_attempts 1 cfg.initial_delay b0 0 []
      Option.none hb hmax

/-- Witness for C6 amended with max_attempts = 2 and an exhausted budget. -/
theorem C6_amended_witness :
    let cfg : RetryConfig := ⟨2, 2, 2, 1/5, false⟩
    let env : RetryEnv := ⟨fun _ => .ok (.intv 1), fun _ => 0, fun _ => 0⟩
    (∃ b1, (retry_with_backoff cfg env (some ⟨3, 3⟩)).budget = some b1 ∧
      b1.max_attempts = (3 : Nat) ∧
      b1.attempts = 3 + (retry_with_backoff cfg env (some ⟨3, 3⟩)).calls) ∧
    ((3 : Nat) ≥ 3 →
      (retry_with_backoff cfg env (some ⟨3, 3⟩)).result =
        .error (.retryBudgetExceeded "Request retry budget exhausted") ∧
      (retry_with_backoff cfg env (some ⟨3, 3⟩)).calls = 0 ∧
      (retry_with_backoff cfg env (some ⟨3, 3⟩)).budget = some ⟨3, 3⟩) :=
  C6_amended ⟨2, 2, 2, 1/5, false⟩ ⟨fun _ => .ok (.intv 1), fun _ => 0, fun _ => 0⟩
    ⟨3, 3⟩ (by norm_num)

/-- C7: submitting a task whose (nonempty) dedupe key is already held by a
queued-or-executing task is rejected — schedule returns false and changes
neither the queue nor the in-flight key set — and once the first task has
been executed by the worker (whatever its outcome, success or exception),
the key is released and a new submission with the same key is accepted. -/
theorem C7_dedupe_key (k : String) (hk : k ≠ "") (p1 p2 p3 : Nat) (pri : Int)
    (delay jit now rand : ℚ) (outcome : Except Exc Unit) :
    let s0 := RequestScheduler.mk0
    let r1 := s0.schedule p1 pri delay jit (some k) now rand
    let r2 := r1.2.schedule p2 pri delay jit (some k) now rand
    let s3 := r2.2.runNextTask outcome
    let r4 := s3.schedule p3 pri delay jit (some k) now rand
    r1.1 = true ∧
    r2.1 = false ∧ r2.2.queue = r1.2.queue ∧ r2.2.inflight = r1.2.inflight ∧
    s3.inflight = [] ∧ r4.1 = true := by
  have hke : k.isEmpty = false := by
    rcases h : k.isEmpty with _ | _
    · rfl
    · exact absurd ((String.isEmpty_iff k).mp h) hk
  have hkt : keyTruthy (some k) = true := by
    simp [keyTruthy, hke]
  refine ⟨?_, ?_, ?_, ?_, ?_, ?_⟩ <;>
    simp [RequestScheduler.mk0, RequestScheduler.schedule, RequestScheduler.runNextTask,
      RequestScheduler.popMin, hkt]

/-- Witness for C7 at the concrete dedupe key of the scenario. -/
theorem C7_dedupe_key_witness :
    let s0 := RequestScheduler.mk0
    let r1 := s0.schedule 1 1 0 0 (some "refresh:ABC") 0 0
    let r2 := r1.2.schedule 2 1 0 0 (some "refresh:ABC") 0 0
    let s3 := r2.2.runNextTask (.error (.generic Option.none "task blew up"))
    let r4 := s3.schedule 3 1 0 0 (some "refresh:ABC") 0 0
    r1.1 = true ∧
    r2.1 = false ∧ r2.2.queue = r1.2.queue ∧ r2.2.inflight = r1.2.inflight ∧
    s3.inflight = [] ∧ r4.1 = true :=
  C7_dedupe_key "refresh:ABC" (by decide) 1 2 3 1 0 0 0 0 _

/-- C8 counterexample: an entry stored with ttl = 0 whose value exists is
nevertheless treated as a hard miss by a get with allow_stale = false (it
returns Python None and counts a miss), contradicting the claim that every
read of a zero-or-negative TTL entry is a stale hit even when allow_stale
is false. The same read with allow_stale = true does return the value. -/
theorem C8_counterexample :
    let c := (APICache.mk0 3600 false true 5000).set "k" (.intv 7) (some 0) 0
    (c.get "k" 1 false).1 = PyVal.none ∧
    (c.get "k" 1 false).2.stats.misses = 1 ∧
    (c.get "k" 1 true).1 = PyVal.intv 7 := by
  norm_num +decide [APICache.mk0, APICache.set, APICache.get, APICache.getDisk,
    APICache.getMiss, assocLookup, assocErase, dictAssign, moveToEnd, evictLRU]

/-- C8 amended: a memory entry with zero or negative TTL is always expired,
so a read with allow_stale = true is a stale hit returning the stored value,
while a read with allow_stale = false treats it as a miss (with the disk
tier disabled it returns Python None and counts a miss). -/
theorem C8_amended (c : APICache) (key : String) (en : CacheEntry) (now : ℚ)
    (hm : c.enable_memory = true)
    (hl : assocLookup c.memory_cache key = some en)
    (httl : en.ttl ≤ 0) (hage : en.cached_at ≤ now) :
    (c.get key now true).1 = en.value ∧
    (c.get key now true).2.stats.stale_hits = c.stats.stale_hits + 1 ∧
    (c.enable_disk = false →
      (c.get key now false).1 = PyVal.none ∧
      (c.get key now false).2.stats.misses = c.stats.misses + 1) := by
  have hfresh : ¬(now - en.cached_at < en.ttl) := by
    intro hlt
    have : (0 : ℚ) ≤ now - en.cached_at := by linarith
    linarith
  refine ⟨?_, ?_, ?_⟩
  · simp [APICache.get, hm, hl, hfresh]
  · simp [APICache.get, hm, hl, hfresh]
  · intro hd
    constructor
    · simp [APICache.get, hm, hl, hfresh, APICache.getDisk, hd, APICache.getMiss]
    · simp [APICache.get, hm, hl, hfresh, APICache.getDisk, hd, APICache.getMiss]

/-- Witness for C8 amended at a concrete zero-TTL entry. -/
theorem C8_amended_witness :
    let c : APICache := { memory_cache := [("k", ⟨PyVal.intv 7, 0, 0⟩)], disk := []
                          default_ttl := 3600, enable_disk := false, enable_memory := true
                          max_entries := 5000, stats := ⟨0, 0, 0, 0, 0, 0⟩ }
    (c.get "k" 1 true).1 = PyVal.intv 7 ∧
    (c.get "k" 1 true).2.stats.stale_hits = 0 + 1 ∧
    (c.enable_disk = false →
      (c.get "k" 1 false).1 = PyVal.none ∧
      (c.get "k" 1 false).2.stats.misses = 0 + 1) := by
  exact C8_amended _ "k" ⟨PyVal.intv 7, 0, 0⟩ 1 rfl (by simp [assocLookup]) (by norm_num)
    (by norm_num)
